import Mathlib

/-!
Verification of the nametag generator (`generate_nametags.py`).

Shallow embedding conventions:
* Python strings are modelled as `List Char` (`Str`).
* Text widths (produced by reportlab's `stringWidth`) are real-valued;
  we model them as `ℚ` and parametrize every layout function by an
  abstract measurement function `μ : Str → ℕ → ℚ` (the Text Measurer is
  the program's only external dependency; its metrics table is not part
  of the repository).
* Font sizes are `ℕ` (the code scans integer sizes).
* Page-coordinate arithmetic (floats in the code) is modelled exactly
  over `ℚ`.
-/

namespace Nametags

abbrev Str := List Char

/-- Width measurement: abstract model of `measure_text_width`
(`pdf.stringWidth(text, font, size)`), for one fixed font. -/
abbrev Measure := Str → ℕ → ℚ

/-- Python's whitespace class (`str.strip` / `str.split` / regex `\s`),
restricted to the ASCII whitespace characters. -/
def pyIsSpace (c : Char) : Bool :=
  c.toNat = 32 || c.toNat = 9 || c.toNat = 10 || c.toNat = 13 || c.toNat = 11 || c.toNat = 12

/-- Python `str.strip(chars)`: drop the characters satisfying `p` from both ends. -/
def pyStripWith (p : Char → Bool) (l : Str) : Str :=
  ((l.dropWhile p).reverse.dropWhile p).reverse

/-- Python `str.strip()` (whitespace). -/
def pyStrip (l : Str) : Str := pyStripWith pyIsSpace l

/-- Python `str.strip('"')`. -/
def stripQuotes (l : Str) : Str := pyStripWith (fun c => c == '"') l

/-- Helper for `collapseWs`: the Boolean records whether the previous
character was part of a whitespace run already emitted as `' '`. -/
def collapseWsAux : Bool → Str → Str
  | _, [] => []
  | inRun, c :: cs =>
    if pyIsSpace c then
      if inRun then collapseWsAux true cs else ' ' :: collapseWsAux true cs
    else c :: collapseWsAux false cs

/-- Python `re.sub(r"\s+", " ", s)`: every maximal whitespace run becomes one space. -/
def collapseWs (l : Str) : Str := collapseWsAux false l

/-- Helper for `pySplit`: accumulate the current word (reversed). -/
def pySplitAux : Str → Str → List Str
  | [], acc => if acc.isEmpty then [] else [acc.reverse]
  | c :: cs, acc =>
    if pyIsSpace c then
      if acc.isEmpty then pySplitAux cs [] else acc.reverse :: pySplitAux cs []
    else pySplitAux cs (c :: acc)

/-- Python `str.split()`: whitespace tokenization, no empty tokens. -/
def pySplit (l : Str) : List Str := pySplitAux l []

/-- Python `" ".join(ws)`. -/
def joinSpace (ws : List Str) : Str := List.intercalate [' '] ws

/-! ## Line-Fit Engine (`find_font_size_for_line`, `try_two_line_split`,
`layout_name_lines`) -/

/-- Python `range(maxS, minS - 1, -1)`: the integer sizes `maxS, maxS-1, …, minS`
scanned from large to small (empty when `maxS < minS`). -/
def descRange (maxS minS : ℕ) : List ℕ :=
  (List.range (maxS + 1 - minS)).map (fun k => maxS - k)

/-- `find_font_size_for_line`: first size in the descending scan whose measured
width fits, else `minS`. -/
def find_font_size_for_line (μ : Measure) (text : Str) (maxWidth : ℚ)
    (maxS minS : ℕ) : ℕ :=
  match (descRange maxS minS).find? (fun s => decide (μ text s ≤ maxWidth)) with
  | some s => s
  | none => minS

/-- The split points `1, …, n-1` tried by `try_two_line_split`
(`for i in range(1, len(words))`). -/
def splitIndices (n : ℕ) : List ℕ := (List.range (n - 1)).map (· + 1)

/-- `" ".join(words[:i])`. -/
def splitLine1 (ws : List Str) (i : ℕ) : Str := joinSpace (ws.take i)

/-- `" ".join(words[i:])`. -/
def splitLine2 (ws : List Str) (i : ℕ) : Str := joinSpace (ws.drop i)

/-- `max(w1, w2)` for the two lines of split point `i`. -/
def split_max_width (μ : Measure) (ws : List Str) (sz i : ℕ) : ℚ :=
  max (μ (splitLine1 ws i) sz) (μ (splitLine2 ws i) sz)

/-- A split point is feasible when both of its lines fit within `maxWidth`. -/
def split_feasible (μ : Measure) (ws : List Str) (sz : ℕ) (maxWidth : ℚ) (i : ℕ) : Prop :=
  μ (splitLine1 ws i) sz ≤ maxWidth ∧ μ (splitLine2 ws i) sz ≤ maxWidth

instance (μ : Measure) (ws : List Str) (sz : ℕ) (maxWidth : ℚ) (i : ℕ) :
    Decidable (split_feasible μ ws sz maxWidth i) := by
  unfold split_feasible; infer_instance

/-- One iteration of the `for i in range(1, len(words))` loop of
`try_two_line_split`: keep the feasible split with strictly smaller maximal
line width (`best_max_line_width` starts as `float("inf")`, modelled by `none`). -/
def twoLineStep (μ : Measure) (ws : List Str) (sz : ℕ) (maxWidth : ℚ)
    (acc : Option (List Str × ℕ) × Option ℚ) (i : ℕ) :
    Option (List Str × ℕ) × Option ℚ :=
  let line1 := splitLine1 ws i
  let line2 := splitLine2 ws i
  let w1 := μ line1 sz
  let w2 := μ line2 sz
  let maxw := max w1 w2
  match acc with
  | (best, none) =>
    if w1 ≤ maxWidth ∧ w2 ≤ maxWidth then (some ([line1, line2], sz), some maxw)
    else (best, none)
  | (best, some b) =>
    if w1 ≤ maxWidth ∧ w2 ≤ maxWidth ∧ maxw < b then (some ([line1, line2], sz), some maxw)
    else (best, some b)

/-- `try_two_line_split`: returns the best feasible two-line split at
`target_size`, or `none`. -/
def try_two_line_split (μ : Measure) (text : Str) (targetSize : ℕ)
    (maxWidth : ℚ) : Option (List Str × ℕ) :=
  let ws := pySplit text
  if ws.length ≤ 1 then none
  else ((splitIndices ws.length).foldl (twoLineStep μ ws targetSize maxWidth) (none, none)).1

/-- `layout_name_lines`: single line at the largest size when possible, then
two-line splits from large to small sizes, else the single-line fallback at
`minS`. -/
def layout_name_lines (μ : Measure) (text : Str) (maxWidth : ℚ)
    (maxS minS : ℕ) : List Str × ℕ :=
  let s := find_font_size_for_line μ text maxWidth maxS minS
  if μ text s ≤ maxWidth then ([text], s)
  else
    match (descRange maxS minS).findSome? (fun c => try_two_line_split μ text c maxWidth) with
    | some r => r
    | none => ([text], minS)

/-! ## Panel Renderer (`draw_nametag`) -/

/-- One point per `reportlab.lib.units.inch` = 72. -/
def inchQ : ℚ := 72

/-- `padding_x = 0.35 * inch`. -/
def padding_x : ℚ := 126 / 5

/-- `padding_y = 0.12 * inch` (flat nametags). -/
def padding_y : ℚ := 216 / 25

/-- `0.20 * inch`, the gap between the footer and the name area. -/
def gap_above_footer : ℚ := 72 / 5

/-- `line_gap_ratio = 0.15`. -/
def line_gap_ratio : ℚ := 3 / 20

/-- `available_width = max(0.0, tag_width - 2 * padding_x)`. -/
def available_width (tagWidth : ℚ) : ℚ := max 0 (tagWidth - 2 * padding_x)

/-- Footer size selection in `draw_nametag` / `_draw_panel_content_at_origin`:
base size 10, re-fit through `find_font_size_for_line(…, max_size=14, min_size=8)`
when the footer is too wide. -/
def footer_size_of (μ : Measure) (footer : Str) (avail : ℚ) : ℕ :=
  if μ footer 10 ≤ avail then 10
  else find_font_size_for_line μ footer avail 14 8

/-- `total_text_height = len(lines) * font_size + (len(lines) - 1) * (0.15 * font_size)`.
`layout_name_lines` always returns at least one line, so the truncated `ℕ`
subtraction agrees with Python's `len(lines) - 1`. -/
def total_text_height (nLines fontSize : ℕ) : ℚ :=
  (nLines : ℚ) * fontSize + ((nLines - 1 : ℕ) : ℚ) * (line_gap_ratio * fontSize)

/-- Python `int(q)` for the nonnegative rationals appearing in the size
adjustment (truncation towards zero = floor there). -/
def pyInt (q : ℚ) : ℕ := q.num.toNat / q.den

/-- The anti-overlap safeguard of `draw_nametag`:
`if name_area_height > 0 and total_text_height > name_area_height:`
`    adjusted_size = max(int(font_size * scale), 14)`. -/
def adjusted_size (nameAreaHeight : ℚ) (nLines fontSize : ℕ) : ℕ :=
  if 0 < nameAreaHeight ∧ nameAreaHeight < total_text_height nLines fontSize then
    max (pyInt ((fontSize : ℚ) * (nameAreaHeight / total_text_height nLines fontSize))) 14
  else fontSize

/-- Name lines and final font size used by `draw_nametag` for the name block. -/
def name_block (μ : Measure) (name : Str) (avail nameAreaHeight : ℚ)
    (maxS minS : ℕ) : List Str × ℕ :=
  let L := layout_name_lines μ name avail maxS minS
  (L.1, adjusted_size nameAreaHeight L.1.length L.2)

/-- `name_area_height` of `draw_nametag`:
`max(0.0, (y + tag_height - padding_y) - (footer_y + footer_size + 0.20*inch))`. -/
def name_area_height_of (μ : Measure) (y tagHeight tagWidth : ℚ) (footer : Str) : ℚ :=
  max 0 ((y + tagHeight - padding_y) -
    (y + padding_y + (footer_size_of μ footer (available_width tagWidth) : ℚ) + gap_above_footer))

/-- A drawn text item: `(text, font size, x, y)` of one `pdf.drawString` call. -/
abbrev DrawnText := Str × ℕ × ℚ × ℚ

/-- `draw_nametag` (text output only): the footer `drawString` followed by the
name lines' `drawString`s, with the exact coordinate arithmetic of the code. -/
def draw_nametag (μ : Measure) (x y tagWidth tagHeight : ℚ)
    (nameText footerText : Str) : List DrawnText :=
  let avail := available_width tagWidth
  let footerSize := footer_size_of μ footerText avail
  let footerY := y + padding_y
  let footerX := x + (tagWidth - μ footerText footerSize) / 2
  let nameAreaBottom := footerY + footerSize + gap_above_footer
  let nameAreaHeight := name_area_height_of μ y tagHeight tagWidth footerText
  let nb := name_block μ nameText avail nameAreaHeight 96 18
  let lines := nb.1
  let fontSize := nb.2
  let total := total_text_height lines.length fontSize
  let startY := max (nameAreaBottom + 4) (nameAreaBottom + (nameAreaHeight - total) / 2)
  (footerText, footerSize, footerX, footerY) ::
    lines.enum.map (fun p =>
      (p.2, fontSize, x + (tagWidth - μ p.2 fontSize) / 2,
        startY + ((lines.length - 1 - p.1 : ℕ) : ℚ) * ((fontSize : ℚ) + line_gap_ratio * fontSize)))

/-! ## Page Composer (`generate_pdf`) -/

/-- `tags_per_row = max(1, int(cols))`. -/
def tags_per_row (cols : ℕ) : ℕ := max 1 cols

/-- `tags_per_col = max(1, int(rows))`. -/
def tags_per_col (rows : ℕ) : ℕ := max 1 rows

/-- `tags_per_page = tags_per_row * tags_per_col`. -/
def tags_per_page (rows cols : ℕ) : ℕ := tags_per_row cols * tags_per_col rows

/-- `tag_width = page_width / tags_per_row`. -/
def tag_width (pageWidth : ℚ) (cols : ℕ) : ℚ := pageWidth / (tags_per_row cols : ℚ)

/-- `tag_height = page_height / tags_per_col`. -/
def tag_height (pageHeight : ℚ) (rows : ℕ) : ℚ := pageHeight / (tags_per_col rows : ℚ)

/-- Page index of panel `idx` (number of `showPage()` calls before it). -/
def panel_page (rows cols idx : ℕ) : ℕ := idx / tags_per_page rows cols

/-- `(x, y)` of panel `idx`:
`pos = idx % tags_per_page; col = pos % tags_per_row; row = pos // tags_per_row;`
`x = col * tag_width; y = page_height - (row + 1) * tag_height`. -/
def panel_xy (pageWidth pageHeight : ℚ) (rows cols idx : ℕ) : ℚ × ℚ :=
  let pos := idx % tags_per_page rows cols
  let colIndex := pos % tags_per_row cols
  let rowIndexTopDown := pos / tags_per_row cols
  (colIndex * tag_width pageWidth cols,
   pageHeight - ((rowIndexTopDown : ℚ) + 1) * tag_height pageHeight rows)

/-- `if idx > 0 and idx % tags_per_page == 0: pdf.showPage()`. -/
def new_page_before (rows cols idx : ℕ) : Bool :=
  decide (0 < idx) && decide (idx % tags_per_page rows cols = 0)

/-- `generate_pdf` (layout output only): the placement (page, x, y, name) of
every panel in roster order, and the number of pages of the saved document
(`showPage()` calls plus the final page emitted by `save()`). -/
def generate_pdf (pageWidth pageHeight : ℚ) (rows cols : ℕ) (names : List Str) :
    List (ℕ × ℚ × ℚ × Str) × ℕ :=
  (names.enum.map (fun p =>
      (panel_page rows cols p.1,
       (panel_xy pageWidth pageHeight rows cols p.1).1,
       (panel_xy pageWidth pageHeight rows cols p.1).2,
       p.2)),
   ((List.range names.length).filter (fun i => new_page_before rows cols i)).length + 1)

/-! ## Roster Loader (`read_full_names_from_csv`, `load_preferred_names_csv`)
and tent grid defaults (`main`) -/

/-- `clean_full = re.sub(r"\s+", " ", raw_full).strip().strip('"')`
(applied to the already-stripped `raw_full`). -/
def clean_full (raw : Str) : Str := stripQuotes (pyStrip (collapseWs raw))

/-- `netid = email_value.split("@", 1)[0].strip()` for a stripped email value
containing `'@'`. -/
def netid_of (emailStripped : Str) : Str :=
  pyStrip (emailStripped.takeWhile (fun c => !(c == '@')))

/-- Python `dict.get` over the model of the preferred-names mapping
(an association list with unique keys). -/
def dictGet (m : List (Str × Str)) (k : Str) : Option Str :=
  (m.find? (fun p => p.1 == k)).map (·.2)

/-- `mapping[netid] = preferred_name`: overwrite the existing key or append. -/
def upsert (m : List (Str × Str)) (k v : Str) : List (Str × Str) :=
  if m.any (fun p => p.1 == k) then m.map (fun p => if p.1 == k then (k, v) else p)
  else m ++ [(k, v)]

/-- `load_preferred_names_csv`: rows are `(netid, preferred_name)` cell values;
rows with missing/blank netid are skipped, values are stripped. -/
def load_preferred_names_csv (rows : List (Str × Str)) : List (Str × Str) :=
  rows.foldl (fun m r =>
    let netid := pyStrip r.1
    if netid.isEmpty then m else upsert m netid (pyStrip r.2)) []

/-- The body of the row loop of `read_full_names_from_csv` for one row,
given the preferred mapping (`none` when not supplied, matching Python
truthiness of the `preferred_by_netid and email_field` test) and whether an
email-like column was detected. Returns `none` when the row is skipped. -/
def processRow (pref : Option (List (Str × Str))) (emailField : Bool)
    (nameVal emailVal : Str) : Option Str :=
  let raw := pyStrip nameVal
  if raw.isEmpty then none
  else
    let clean := clean_full raw
    if clean.isEmpty then none
    else
      some (match pref with
        | none => clean
        | some m =>
          if m.isEmpty then clean
          else if !emailField then clean
          else
            let ev := pyStrip emailVal
            if ev.isEmpty then clean
            else if !(ev.any (fun c => c == '@')) then clean
            else
              match dictGet m (netid_of ev) with
              | none => clean
              | some p => let pc := pyStrip p; if pc.isEmpty then clean else pc)

/-- `read_full_names_from_csv`: rows are `(name cell, email cell)` values. -/
def read_full_names_from_csv (pref : Option (List (Str × Str))) (emailField : Bool)
    (rows : List (Str × Str)) : List Str :=
  rows.filterMap (fun r => processRow pref emailField r.1 r.2)

/-- The tent grid defaulting in `main`:
`if args.tent and args.rows == 2 and args.cols == 2: rows, cols = (1, 2) or (2, 1)`. -/
def main_grid (tent : Bool) (tentStyle : Str) (rows cols : ℕ) : ℕ × ℕ :=
  if tent ∧ rows = 2 ∧ cols = 2 then
    if tentStyle = 't' :: 'r' :: 'i' :: [] then (1, 2) else (2, 1)
  else (rows, cols)

/-! ## Supporting lemmas: list scans -/

lemma mem_descRange {maxS minS s : ℕ} :
    s ∈ descRange maxS minS ↔ minS ≤ s ∧ s ≤ maxS := by
  unfold descRange
  simp only [List.mem_map, List.mem_range]
  constructor
  · rintro ⟨k, hk, rfl⟩; omega
  · rintro ⟨h1, h2⟩; exact ⟨maxS - s, by omega, by omega⟩

lemma descRange_pairwise (maxS minS : ℕ) : (descRange maxS minS).Pairwise (· > ·) := by
  unfold descRange
  rw [List.pairwise_map]
  refine List.Pairwise.imp_of_mem ?_ (List.pairwise_lt_range _)
  intro a b ha hb hab
  have ha' := List.mem_range.mp ha
  have hb' := List.mem_range.mp hb
  omega

lemma splitIndices_pairwise (n : ℕ) : (splitIndices n).Pairwise (· < ·) := by
  unfold splitIndices
  rw [List.pairwise_map]
  exact (List.pairwise_lt_range _).imp (by omega)

lemma findSome?_eq_none_iff {α β : Type} {f : α → Option β} {l : List α} :
    l.findSome? f = none ↔ ∀ x ∈ l, f x = none := by
  induction l with
  | nil => simp
  | cons a t ih => cases hfa : f a <;> simp [List.findSome?_cons, hfa, ih]

lemma findSome?_eq_some_split {α β : Type} {f : α → Option β} {r : β} {l : List α}
    (h : l.findSome? f = some r) :
    ∃ l₁ a l₂, l = l₁ ++ a :: l₂ ∧ (∀ x ∈ l₁, f x = none) ∧ f a = some r := by
  induction l with
  | nil => simp at h
  | cons a t ih =>
    cases hfa : f a with
    | some b =>
      rw [List.findSome?_cons, hfa] at h
      exact ⟨[], a, t, rfl, by simp, hfa.trans h⟩
    | none =>
      rw [List.findSome?_cons, hfa] at h
      obtain ⟨l₁, c, l₂, rfl, h1, h2⟩ := ih h
      exact ⟨a :: l₁, c, l₂, rfl, by
        intro x hx
        rcases List.mem_cons.mp hx with rfl | hx'
        · exact hfa
        · exact h1 x hx', h2⟩

lemma findSome?_of_prefix_none {α β : Type} {f : α → Option β} {r : β}
    (l₁ : List α) (a : α) (l₂ : List α)
    (h1 : ∀ x ∈ l₁, f x = none) (h2 : f a = some r) :
    (l₁ ++ a :: l₂).findSome? f = some r := by
  induction l₁ with
  | nil => simp [List.findSome?_cons, h2]
  | cons b t ih =>
    rw [List.cons_append, List.findSome?_cons, h1 b (List.mem_cons_self b t)]
    exact ih (fun x hx => h1 x (List.mem_cons_of_mem _ hx))

lemma find?_eq_some_of_max {p : ℕ → Bool} {l : List ℕ} (hsort : l.Pairwise (· > ·))
    {s : ℕ} (hmem : s ∈ l) (hps : p s = true)
    (hmax : ∀ x ∈ l, p x = true → x ≤ s) : l.find? p = some s := by
  induction l with
  | nil => simp at hmem
  | cons a t ih =>
    by_cases hpa : p a = true
    · have hsa : s = a := by
        rcases List.mem_cons.mp hmem with rfl | hst
        · rfl
        · exfalso
          have h1 : a ≤ s := hmax a (List.mem_cons_self a t) hpa
          have h2 : a > s := (List.pairwise_cons.mp hsort).1 s hst
          omega
      rw [hsa]
      exact List.find?_cons_of_pos _ hpa
    · have hst : s ∈ t := by
        rcases List.mem_cons.mp hmem with rfl | h
        · exact absurd hps hpa
        · exact h
      rw [List.find?_cons_of_neg _ (by simpa using hpa)]
      exact ih (List.pairwise_cons.mp hsort).2 hst
        (fun x hx hpx => hmax x (List.mem_cons_of_mem _ hx) hpx)

/-- Case analysis for `find_font_size_for_line`: either nothing in the scan
fits and the result is `minS`, or the result is a scanned size that fits. -/
lemma find_font_size_spec (μ : Measure) (text : Str) (maxWidth : ℚ) (maxS minS : ℕ) :
    (find_font_size_for_line μ text maxWidth maxS minS = minS ∧
      ∀ s ∈ descRange maxS minS, ¬ μ text s ≤ maxWidth) ∨
    (find_font_size_for_line μ text maxWidth maxS minS ∈ descRange maxS minS ∧
      μ text (find_font_size_for_line μ text maxWidth maxS minS) ≤ maxWidth) := by
  unfold find_font_size_for_line
  cases hf : (descRange maxS minS).find? (fun s => decide (μ text s ≤ maxWidth)) with
  | none =>
    left
    refine ⟨rfl, fun s hs => ?_⟩
    have := List.find?_eq_none.mp hf s hs
    simpa using this
  | some s =>
    right
    refine ⟨List.mem_of_find?_eq_some hf, ?_⟩
    have := List.find?_some hf
    simpa using this

/-! ## The two-line scan invariant -/

/-- Invariant of the accumulator of `try_two_line_split`'s loop after the
split points in `P` have been processed. -/
def AccOk (μ : Measure) (ws : List Str) (sz : ℕ) (maxWidth : ℚ) (P : List ℕ)
    (acc : Option (List Str × ℕ) × Option ℚ) : Prop :=
  (acc = (none, none) ∧ ∀ j ∈ P, ¬ split_feasible μ ws sz maxWidth j)
  ∨ ∃ i, i ∈ P ∧
      acc = (some ([splitLine1 ws i, splitLine2 ws i], sz),
             some (split_max_width μ ws sz i)) ∧
      split_feasible μ ws sz maxWidth i ∧
      (∀ j ∈ P, split_feasible μ ws sz maxWidth j →
        split_max_width μ ws sz i ≤ split_max_width μ ws sz j) ∧
      (∀ j ∈ P, split_feasible μ ws sz maxWidth j →
        split_max_width μ ws sz j ≤ split_max_width μ ws sz i → i ≤ j)

lemma accOk_step (μ : Measure) (ws : List Str) (sz : ℕ) (maxWidth : ℚ)
    (P : List ℕ) (acc : Option (List Str × ℕ) × Option ℚ) (k : ℕ)
    (hP : ∀ j ∈ P, j < k) (h : AccOk μ ws sz maxWidth P acc) :
    AccOk μ ws sz maxWidth (P ++ [k]) (twoLineStep μ ws sz maxWidth acc k) := by
  rcases h with ⟨hacc, hall⟩ | ⟨i, hiP, hacc, hfeas, hmin, htie⟩
  · subst hacc
    by_cases hk : split_feasible μ ws sz maxWidth k
    · have hk' : μ (splitLine1 ws k) sz ≤ maxWidth ∧ μ (splitLine2 ws k) sz ≤ maxWidth := hk
      right
      refine ⟨k, List.mem_append_right _ (List.mem_singleton_self k), ?_, hk, ?_, ?_⟩
      · simp only [twoLineStep, split_max_width]
        rw [if_pos hk']
      · intro j hj hjf
        rcases List.mem_append.mp hj with hj' | hj'
        · exact absurd hjf (hall j hj')
        · rw [List.mem_singleton.mp hj']
      · intro j hj hjf _
        rcases List.mem_append.mp hj with hj' | hj'
        · exact absurd hjf (hall j hj')
        · exact (List.mem_singleton.mp hj').ge
    · have hk' : ¬(μ (splitLine1 ws k) sz ≤ maxWidth ∧ μ (splitLine2 ws k) sz ≤ maxWidth) := hk
      left
      refine ⟨?_, ?_⟩
      · simp only [twoLineStep]
        rw [if_neg hk']
      · intro j hj
        rcases List.mem_append.mp hj with hj' | hj'
        · exact hall j hj'
        · rw [List.mem_singleton.mp hj']; exact hk
  · subst hacc
    by_cases hcond : split_feasible μ ws sz maxWidth k ∧
        split_max_width μ ws sz k < split_max_width μ ws sz i
    · have hc' : μ (splitLine1 ws k) sz ≤ maxWidth ∧ μ (splitLine2 ws k) sz ≤ maxWidth ∧
          max (μ (splitLine1 ws k) sz) (μ (splitLine2 ws k) sz) < split_max_width μ ws sz i :=
        ⟨hcond.1.1, hcond.1.2, hcond.2⟩
      right
      refine ⟨k, List.mem_append_right _ (List.mem_singleton_self k), ?_, hcond.1, ?_, ?_⟩
      · simp only [twoLineStep]
        rw [if_pos hc']
        rfl
      · intro j hj hjf
        rcases List.mem_append.mp hj with hj' | hj'
        · exact le_trans hcond.2.le (hmin j hj' hjf)
        · rw [List.mem_singleton.mp hj']
      · intro j hj hjf hle
        rcases List.mem_append.mp hj with hj' | hj'
        · exfalso
          have h1 := hmin j hj' hjf
          have h2 := hcond.2
          linarith
        · exact (List.mem_singleton.mp hj').ge
    · have hc' : ¬(μ (splitLine1 ws k) sz ≤ maxWidth ∧ μ (splitLine2 ws k) sz ≤ maxWidth ∧
          max (μ (splitLine1 ws k) sz) (μ (splitLine2 ws k) sz) < split_max_width μ ws sz i) := by
        intro hcon
        exact hcond ⟨⟨hcon.1, hcon.2.1⟩, hcon.2.2⟩
      right
      refine ⟨i, List.mem_append_left _ hiP, ?_, hfeas, ?_, ?_⟩
      · simp only [twoLineStep]
        rw [if_neg hc']
      · intro j hj hjf
        rcases List.mem_append.mp hj with hj' | hj'
        · exact hmin j hj' hjf
        · rw [List.mem_singleton.mp hj'] at hjf ⊢
          by_contra hlt
          push_neg at hlt
          exact hcond ⟨hjf, hlt⟩
      · intro j hj hjf hle
        rcases List.mem_append.mp hj with hj' | hj'
        · exact htie j hj' hjf hle
        · rw [List.mem_singleton.mp hj']
          exact le_of_lt (hP i hiP)

lemma accOk_foldl (μ : Measure) (ws : List Str) (sz : ℕ) (maxWidth : ℚ)
    (l : List ℕ) :
    ∀ (P : List ℕ) (acc : Option (List Str × ℕ) × Option ℚ),
      (∀ j ∈ P, ∀ k ∈ l, j < k) → l.Pairwise (· < ·) →
      AccOk μ ws sz maxWidth P acc →
      AccOk μ ws sz maxWidth (P ++ l) (l.foldl (twoLineStep μ ws sz maxWidth) acc) := by
  induction l with
  | nil => intro P acc _ _ h; simpa using h
  | cons k rest ih =>
    intro P acc hPl hsort h
    have hstep := accOk_step μ ws sz maxWidth P acc k
      (fun j hj => hPl j hj k (List.mem_cons_self _ _)) h
    have hrest : ∀ j ∈ P ++ [k], ∀ k' ∈ rest, j < k' := by
      intro j hj k' hk'
      rcases List.mem_append.mp hj with hj' | hj'
      · exact hPl j hj' k' (List.mem_cons_of_mem _ hk')
      · rw [List.mem_singleton.mp hj']
        exact (List.pairwise_cons.mp hsort).1 k' hk'
    have := ih (P ++ [k]) (twoLineStep μ ws sz maxWidth acc k) hrest
      (List.pairwise_cons.mp hsort).2 hstep
    simpa [List.append_assoc] using this

/-- Soundness and optimality of `try_two_line_split` when it returns a split:
the result is the feasible split point with the smallest maximal line width,
the first such point in left-to-right scan order. -/
lemma try_two_line_split_eq_some (μ : Measure) (text : Str) (sz : ℕ)
    (maxWidth : ℚ) (r : List Str × ℕ)
    (h : try_two_line_split μ text sz maxWidth = some r) :
    ∃ i, i ∈ splitIndices (pySplit text).length ∧
      r = ([splitLine1 (pySplit text) i, splitLine2 (pySplit text) i], sz) ∧
      split_feasible μ (pySplit text) sz maxWidth i ∧
      (∀ j ∈ splitIndices (pySplit text).length,
        split_feasible μ (pySplit text) sz maxWidth j →
        split_max_width μ (pySplit text) sz i ≤ split_max_width μ (pySplit text) sz j) ∧
      (∀ j ∈ splitIndices (pySplit text).length,
        split_feasible μ (pySplit text) sz maxWidth j →
        split_max_width μ (pySplit text) sz j ≤ split_max_width μ (pySplit text) sz i →
        i ≤ j) := by
  unfold try_two_line_split at h
  by_cases hlen : (pySplit text).length ≤ 1
  · simp [hlen] at h
  · rw [if_neg hlen] at h
    have hfold := accOk_foldl μ (pySplit text) sz maxWidth
      (splitIndices (pySplit text).length) [] (none, none) (by simp)
      (splitIndices_pairwise _) (Or.inl ⟨rfl, by simp⟩)
    rw [List.nil_append] at hfold
    rcases hfold with ⟨hacc, _⟩ | ⟨i, hi, hacc, hfeas, hmin, htie⟩
    · rw [hacc] at h
      simp at h
    · rw [hacc] at h
      simp only at h
      exact ⟨i, hi, (Option.some_inj.mp h).symm, hfeas, hmin, htie⟩

/-- When `try_two_line_split` finds nothing, no split point is feasible. -/
lemma try_two_line_split_eq_none (μ : Measure) (text : Str) (sz : ℕ)
    (maxWidth : ℚ) (h : try_two_line_split μ text sz maxWidth = none) :
    ∀ i ∈ splitIndices (pySplit text).length,
      ¬ split_feasible μ (pySplit text) sz maxWidth i := by
  unfold try_two_line_split at h
  by_cases hlen : (pySplit text).length ≤ 1
  · intro i hi
    unfold splitIndices at hi
    simp only [List.mem_map, List.mem_range] at hi
    omega
  · rw [if_neg hlen] at h
    have hfold := accOk_foldl μ (pySplit text) sz maxWidth
      (splitIndices (pySplit text).length) [] (none, none) (by simp)
      (splitIndices_pairwise _) (Or.inl ⟨rfl, by simp⟩)
    rw [List.nil_append] at hfold
    rcases hfold with ⟨_, hall⟩ | ⟨i, _, hacc, _, _, _⟩
    · exact hall
    · rw [hacc] at h
      simp at h

/-! ## Claims C1–C3: the Line-Fit Engine -/

/-- A concrete font metric for witnesses and counterexamples: every character
is one unit wide per point of font size (a fixed-pitch face). -/
def charCountMeasure : Measure := fun s k => ((s.length * k : ℕ) : ℚ)

/-- C1 counterexample: under a fixed-pitch metric, the text `"aaa bbb ccc"`
with `max_width = 70` and sizes scanned from 20 down to 18 has every token
fitting at the minimum size, yet `layout_name_lines` returns the overflowing
single-line fallback: the claim's "single token wider than `w`" exception is
not the only way the fallback (and hence an overflowing line) arises. -/
theorem c1_counterexample :
    layout_name_lines charCountMeasure
        ('a' :: 'a' :: 'a' :: ' ' :: 'b' :: 'b' :: 'b' :: ' ' :: 'c' :: 'c' :: 'c' :: []) 70 20 18
      = (('a' :: 'a' :: 'a' :: ' ' :: 'b' :: 'b' :: 'b' :: ' ' :: 'c' :: 'c' :: 'c' :: []) :: [], 18) ∧
    ¬ charCountMeasure ('a' :: 'a' :: 'a' :: ' ' :: 'b' :: 'b' :: 'b' :: ' ' :: 'c' :: 'c' :: 'c' :: []) 18 ≤ 70 ∧
    ∀ t ∈ pySplit ('a' :: 'a' :: 'a' :: ' ' :: 'b' :: 'b' :: 'b' :: ' ' :: 'c' :: 'c' :: 'c' :: []),
      charCountMeasure t 18 ≤ 70 := by
  have hws : pySplit ('a' :: 'a' :: 'a' :: ' ' :: 'b' :: 'b' :: 'b' :: ' ' :: 'c' :: 'c' :: 'c' :: []) =
      [['a','a','a'], ['b','b','b'], ['c','c','c']] := by decide
  refine ⟨?_, ?_, ?_⟩
  · norm_num [layout_name_lines, find_font_size_for_line, descRange, charCountMeasure,
      try_two_line_split, hws, splitIndices, twoLineStep, splitLine1, splitLine2,
      joinSpace, List.intercalate, List.range_succ, List.find?, List.findSome?]
  · norm_num [charCountMeasure]
  · rw [hws]
    intro t ht
    rcases List.mem_cons.mp ht with h | ht'
    · subst h; norm_num [charCountMeasure]
    rcases List.mem_cons.mp ht' with h | ht''
    · subst h; norm_num [charCountMeasure]
    rcases List.mem_cons.mp ht'' with h | ht'''
    · subst h; norm_num [charCountMeasure]
    · simp at ht'''

/-- C1 (amended): for every measure, string and width, every line of the
layout returned by `layout_name_lines` fits within `max_width`, except when
no scanned size fits the text on a single line and no scanned size admits a
feasible two-line word split, in which case the fallback single line at
`min_size` is returned (documented overflow, not an error). -/
theorem c1_layout_lines_fit (μ : Measure) (text : Str) (w : ℚ) (maxS minS : ℕ) :
    (∀ line ∈ (layout_name_lines μ text w maxS minS).1,
       μ line (layout_name_lines μ text w maxS minS).2 ≤ w)
    ∨ ((∀ s ∈ descRange maxS minS, ¬ μ text s ≤ w) ∧
       (∀ s ∈ descRange maxS minS, try_two_line_split μ text s w = none) ∧
       layout_name_lines μ text w maxS minS = ([text], minS)) := by
  by_cases hfit : μ text (find_font_size_for_line μ text w maxS minS) ≤ w
  · left
    have hL : layout_name_lines μ text w maxS minS =
        ([text], find_font_size_for_line μ text w maxS minS) := by
      simp only [layout_name_lines]
      rw [if_pos hfit]
    rw [hL]
    intro line hline
    rw [List.mem_singleton.mp hline]
    exact hfit
  · cases hFS : (descRange maxS minS).findSome?
        (fun c => try_two_line_split μ text c w) with
    | some r =>
      left
      have hL : layout_name_lines μ text w maxS minS = r := by
        simp only [layout_name_lines]
        rw [if_neg hfit, hFS]
      obtain ⟨l₁, c, l₂, _, _, hc⟩ := findSome?_eq_some_split hFS
      obtain ⟨i, _, hrEq, hfeas, _, _⟩ := try_two_line_split_eq_some μ text c w r hc
      rw [hL, hrEq]
      intro line hline
      rcases List.mem_cons.mp hline with h1 | hline'
      · rw [h1]; exact hfeas.1
      · rw [List.mem_singleton.mp hline']; exact hfeas.2
    | none =>
      right
      refine ⟨?_, findSome?_eq_none_iff.mp hFS, ?_⟩
      · rcases find_font_size_spec μ text w maxS minS with ⟨heq, hnone⟩ | ⟨_, hle⟩
        · exact hnone
        · exact absurd hle hfit
      · simp only [layout_name_lines]
        rw [if_neg hfit, hFS]

/-- C2: if the whole string fits on one line at some size in
`[min_size, max_size]`, then `layout_name_lines` returns exactly one line at
the first (largest) size of the descending integer scan whose single-line
measured width fits. -/
theorem c2_single_line_preference (μ : Measure) (text : Str) (w : ℚ)
    (maxS minS s : ℕ) (hmem : minS ≤ s ∧ s ≤ maxS) (hfit : μ text s ≤ w)
    (hlargest : ∀ s', minS ≤ s' → s' ≤ maxS → μ text s' ≤ w → s' ≤ s) :
    layout_name_lines μ text w maxS minS = ([text], s) := by
  have hfind : (descRange maxS minS).find? (fun k => decide (μ text k ≤ w)) = some s :=
    find?_eq_some_of_max (descRange_pairwise maxS minS) (mem_descRange.mpr hmem)
      (by simpa using hfit)
      (fun x hx hpx =>
        hlargest x (mem_descRange.mp hx).1 (mem_descRange.mp hx).2 (by simpa using hpx))
  have hsz : find_font_size_for_line μ text w maxS minS = s := by
    unfold find_font_size_for_line
    rw [hfind]
  simp only [layout_name_lines]
  rw [hsz, if_pos hfit]

/-- C2 witness: `"ab"` with `max_width = 100` under the fixed-pitch metric
fits at the scanned sizes 50 and below; the layout is one line at size 50. -/
theorem c2_witness :
    charCountMeasure ('a' :: 'b' :: []) 50 ≤ 100 ∧
    layout_name_lines charCountMeasure ('a' :: 'b' :: []) 100 72 18 = (('a' :: 'b' :: []) :: [], 50) := by
  have hfit : charCountMeasure ('a' :: 'b' :: []) 50 ≤ 100 := by
    norm_num [charCountMeasure]
  refine ⟨hfit, c2_single_line_preference charCountMeasure _ 100 72 18 50
    ⟨by norm_num, by norm_num⟩ hfit ?_⟩
  intro s' _ _ h
  have h2 : ((2 * s' : ℕ) : ℚ) ≤ 100 := by
    simpa [charCountMeasure] using h
  have h3 : (2 * s' : ℕ) ≤ 100 := by exact_mod_cast h2
  omega

/-- C3: when no scanned size fits the whole string on one line,
`layout_name_lines` returns the two-line split of the first (largest)
candidate size `c` in `[min_size, max_size]` having any feasible split, and
that split minimizes the maximum of the two line widths among the feasible
splits at `c`, ties broken by the leftmost split point. -/
theorem c3_two_line_selection (μ : Measure) (text : Str) (w : ℚ)
    (maxS minS c : ℕ)
    (hnofit : ∀ s, minS ≤ s → s ≤ maxS → ¬ μ text s ≤ w)
    (hc : minS ≤ c ∧ c ≤ maxS)
    (hsplit : try_two_line_split μ text c w ≠ none)
    (hfirst : ∀ c', c < c' → c' ≤ maxS → try_two_line_split μ text c' w = none) :
    ∃ i, i ∈ splitIndices (pySplit text).length ∧
      layout_name_lines μ text w maxS minS =
        ([splitLine1 (pySplit text) i, splitLine2 (pySplit text) i], c) ∧
      split_feasible μ (pySplit text) c w i ∧
      (∀ j ∈ splitIndices (pySplit text).length,
        split_feasible μ (pySplit text) c w j →
        split_max_width μ (pySplit text) c i ≤ split_max_width μ (pySplit text) c j) ∧
      (∀ j ∈ splitIndices (pySplit text).length,
        split_feasible μ (pySplit text) c w j →
        split_max_width μ (pySplit text) c j ≤ split_max_width μ (pySplit text) c i →
        i ≤ j) := by
  have hfit : ¬ μ text (find_font_size_for_line μ text w maxS minS) ≤ w := by
    rcases find_font_size_spec μ text w maxS minS with ⟨heq, _⟩ | ⟨hmem, hle⟩
    · rw [heq]
      exact hnofit minS le_rfl (le_trans hc.1 hc.2)
    · exact absurd hle (hnofit _ (mem_descRange.mp hmem).1 (mem_descRange.mp hmem).2)
  obtain ⟨r, hr⟩ := Option.ne_none_iff_exists'.mp hsplit
  obtain ⟨l₁, l₂, hdec⟩ := List.append_of_mem (mem_descRange.mpr hc)
  have hsorted := descRange_pairwise maxS minS
  have hpre : ∀ x ∈ l₁, try_two_line_split μ text x w = none := by
    intro x hx
    have hgt : x > c := by
      rw [hdec] at hsorted
      exact (List.pairwise_append.mp hsorted).2.2 x hx c (List.mem_cons_self _ _)
    have hxle : x ≤ maxS := by
      have hxmem : x ∈ descRange maxS minS := by
        rw [hdec]; exact List.mem_append_left _ hx
      exact (mem_descRange.mp hxmem).2
    exact hfirst x hgt hxle
  have hFS : (descRange maxS minS).findSome?
      (fun k => try_two_line_split μ text k w) = some r := by
    rw [hdec]
    exact findSome?_of_prefix_none l₁ c l₂ hpre hr
  have hL : layout_name_lines μ text w maxS minS = r := by
    simp only [layout_name_lines]
    rw [if_neg hfit, hFS]
  obtain ⟨i, hi, hrEq, hfeas, hmin, htie⟩ := try_two_line_split_eq_some μ text c w r hr
  exact ⟨i, hi, by rw [hL, hrEq], hfeas, hmin, htie⟩

/-- C3 witness: `"aaa bbb"` with `max_width = 20`, sizes 6 down to 3 under the
fixed-pitch metric: no single-line fit, and the split after the first word is
feasible at size 6, the largest candidate size. -/
theorem c3_witness :
    ∃ i, i ∈ splitIndices (pySplit ('a' :: 'a' :: 'a' :: ' ' :: 'b' :: 'b' :: 'b' :: [])).length ∧
      layout_name_lines charCountMeasure ('a' :: 'a' :: 'a' :: ' ' :: 'b' :: 'b' :: 'b' :: []) 20 6 3 =
        ([splitLine1 (pySplit ('a' :: 'a' :: 'a' :: ' ' :: 'b' :: 'b' :: 'b' :: [])) i,
          splitLine2 (pySplit ('a' :: 'a' :: 'a' :: ' ' :: 'b' :: 'b' :: 'b' :: [])) i], 6) ∧
      split_feasible charCountMeasure (pySplit ('a' :: 'a' :: 'a' :: ' ' :: 'b' :: 'b' :: 'b' :: [])) 6 20 i ∧
      (∀ j ∈ splitIndices (pySplit ('a' :: 'a' :: 'a' :: ' ' :: 'b' :: 'b' :: 'b' :: [])).length,
        split_feasible charCountMeasure (pySplit ('a' :: 'a' :: 'a' :: ' ' :: 'b' :: 'b' :: 'b' :: [])) 6 20 j →
        split_max_width charCountMeasure (pySplit ('a' :: 'a' :: 'a' :: ' ' :: 'b' :: 'b' :: 'b' :: [])) 6 i ≤
          split_max_width charCountMeasure (pySplit ('a' :: 'a' :: 'a' :: ' ' :: 'b' :: 'b' :: 'b' :: [])) 6 j) ∧
      (∀ j ∈ splitIndices (pySplit ('a' :: 'a' :: 'a' :: ' ' :: 'b' :: 'b' :: 'b' :: [])).length,
        split_feasible charCountMeasure (pySplit ('a' :: 'a' :: 'a' :: ' ' :: 'b' :: 'b' :: 'b' :: [])) 6 20 j →
        split_max_width charCountMeasure (pySplit ('a' :: 'a' :: 'a' :: ' ' :: 'b' :: 'b' :: 'b' :: [])) 6 j ≤
          split_max_width charCountMeasure (pySplit ('a' :: 'a' :: 'a' :: ' ' :: 'b' :: 'b' :: 'b' :: [])) 6 i →
        i ≤ j) := by
  have hws : pySplit ('a' :: 'a' :: 'a' :: ' ' :: 'b' :: 'b' :: 'b' :: []) = [['a','a','a'], ['b','b','b']] := by
    decide
  refine c3_two_line_selection charCountMeasure _ 20 6 3 6 ?_ ⟨by norm_num, le_rfl⟩ ?_ ?_
  · intro s hs1 _ h
    have h2 : ((7 * s : ℕ) : ℚ) ≤ 20 := by
      simpa [charCountMeasure] using h
    have h3 : (7 * s : ℕ) ≤ 20 := by exact_mod_cast h2
    omega
  · have hval : try_two_line_split charCountMeasure ('a' :: 'a' :: 'a' :: ' ' :: 'b' :: 'b' :: 'b' :: []) 6 20 =
        some ([['a','a','a'], ['b','b','b']], 6) := by
      norm_num [try_two_line_split, hws, splitIndices, twoLineStep, splitLine1, splitLine2,
        joinSpace, List.intercalate, charCountMeasure, List.range_succ]
    rw [hval]
    simp
  · intro c' hc1 hc2
    omega

/-! ## Claim C4: page composition -/

lemma count_new_pages (p m : ℕ) :
    ((List.range (m + 1)).filter
      (fun i => decide (0 < i) && decide (i % p = 0))).length = m / p := by
  induction m with
  | zero => simp
  | succ m ih =>
    rw [List.range_succ, List.filter_append, List.length_append, ih]
    by_cases hd : p ∣ (m + 1)
    · have hmod : (m + 1) % p = 0 := Nat.dvd_iff_mod_eq_zero.mp hd
      simp [List.filter, hmod, Nat.succ_div, hd]
    · have hmod : ¬ (m + 1) % p = 0 := fun h => hd (Nat.dvd_iff_mod_eq_zero.mpr h)
      simp [List.filter, hmod, Nat.succ_div, hd]

/-- C4: with `rows, cols ≥ 1` and a nonempty roster, `generate_pdf` produces
`⌈N / (rows*cols)⌉` pages; panel `i` sits on page `i / (rows*cols)`, in column
`(i % (rows*cols)) % cols` and row `(i % (rows*cols)) / cols` counted
top-down, at `x = col ⋅ (pageW/cols)` and `y = pageH - (row+1) ⋅ (pageH/rows)`;
a page break happens exactly before panel `i` with `i > 0 ∧ i % (rows*cols) = 0`;
panels carry the roster names in order. -/
theorem c4_page_composition (pageW pageH : ℚ) (rows cols : ℕ) (names : List Str)
    (hr : 1 ≤ rows) (hc : 1 ≤ cols) (hn : 1 ≤ names.length) :
    (generate_pdf pageW pageH rows cols names).2 =
      (names.length + rows * cols - 1) / (rows * cols) ∧
    (∀ i : ℕ,
      panel_page rows cols i = i / (rows * cols) ∧
      panel_xy pageW pageH rows cols i =
        ((((i % (rows * cols)) % cols : ℕ) : ℚ) * (pageW / cols),
         pageH - ((((i % (rows * cols)) / cols : ℕ) : ℚ) + 1) * (pageH / rows)) ∧
      (new_page_before rows cols i = true ↔ 0 < i ∧ i % (rows * cols) = 0)) ∧
    (∀ i (h : i < names.length),
      (generate_pdf pageW pageH rows cols names).1.get? i =
        some (panel_page rows cols i,
          (panel_xy pageW pageH rows cols i).1,
          (panel_xy pageW pageH rows cols i).2,
          names.get ⟨i, h⟩)) := by
  have hrow : tags_per_row cols = cols := Nat.max_eq_right hc
  have hcol : tags_per_col rows = rows := Nat.max_eq_right hr
  have hpp : tags_per_page rows cols = rows * cols := by
    rw [tags_per_page, hrow, hcol, Nat.mul_comm]
  have hppos : 0 < rows * cols := Nat.mul_pos hr hc
  refine ⟨?_, ?_, ?_⟩
  · show ((List.range names.length).filter
        (fun i => new_page_before rows cols i)).length + 1 = _
    obtain ⟨m, hm⟩ : ∃ m, names.length = m + 1 :=
      ⟨names.length - 1, by omega⟩
    rw [hm]
    have hcnt := count_new_pages (rows * cols) m
    have hfeq : ∀ i : ℕ, new_page_before rows cols i =
        (decide (0 < i) && decide (i % (rows * cols) = 0)) := by
      intro i
      rw [new_page_before, hpp]
    calc ((List.range (m + 1)).filter (fun i => new_page_before rows cols i)).length + 1
        = ((List.range (m + 1)).filter
            (fun i => decide (0 < i) && decide (i % (rows * cols) = 0))).length + 1 := by
          congr 1
          apply congrArg
          exact List.filter_congr (fun i _ => by rw [hfeq])
      _ = m / (rows * cols) + 1 := by rw [hcnt]
      _ = (m + rows * cols) / (rows * cols) := (Nat.add_div_right m hppos).symm
      _ = (m + 1 + rows * cols - 1) / (rows * cols) := by
          congr 1
          omega
  · intro i
    refine ⟨?_, ?_, ?_⟩
    · rw [panel_page, hpp]
    · rw [panel_xy, hpp]
      simp only [tag_width, tag_height, hrow, hcol]
    · rw [new_page_before, hpp]
      simp
  · intro i h
    show (names.enum.map _).get? i = _
    rw [List.get?_map]
    have henum : names.enum.get? i = some (i, names.get ⟨i, h⟩) := by
      rw [List.get?_enum, List.get?_eq_get h]
      rfl
    rw [henum]
    rfl

/-- C4 witness: 5 names on a 2×2 letter-landscape grid give 2 pages, and
panel 2 sits at column 0, row 1 of page 0. -/
theorem c4_witness :
    (generate_pdf 792 612 2 2
        (['a'] :: ['b'] :: ['c'] :: ['d'] :: ['e'] :: [])).2 = 2 ∧
    panel_page 2 2 2 = 0 ∧
    panel_xy 792 612 2 2 2 = (0, 612 - 2 * (612 / 2)) := by
  have h := c4_page_composition 792 612 2 2
    (['a'] :: ['b'] :: ['c'] :: ['d'] :: ['e'] :: [])
    (by norm_num) (by norm_num) (by norm_num)
  refine ⟨?_, ?_, ?_⟩
  · rw [h.1]
    norm_num
  · rw [(h.2.1 2).1]
  · rw [(h.2.1 2).2.1]
    norm_num

/-! ## Claim C5: footer fitting -/

/-- C5: in every panel render the footer is the first (and only) footer
`drawString`: bottom-anchored at `y + padding_y`, horizontally centered; its
size is 10 when the footer fits at 10, otherwise it is re-fit by the
single-line search in the 8–14 range; when nothing in 8–14 fits it is still
drawn, at the fallback size 8 (overflowing). -/
theorem c5_footer_fitting (μ : Measure) (x y tagW tagH : ℚ) (name footer : Str) :
    (draw_nametag μ x y tagW tagH name footer).head? =
      some (footer, footer_size_of μ footer (available_width tagW),
        x + (tagW - μ footer (footer_size_of μ footer (available_width tagW))) / 2,
        y + padding_y) ∧
    (μ footer 10 ≤ available_width tagW →
      footer_size_of μ footer (available_width tagW) = 10) ∧
    (¬ μ footer 10 ≤ available_width tagW →
      footer_size_of μ footer (available_width tagW) =
        find_font_size_for_line μ footer (available_width tagW) 14 8 ∧
      8 ≤ footer_size_of μ footer (available_width tagW) ∧
      footer_size_of μ footer (available_width tagW) ≤ 14) ∧
    (¬ μ footer 10 ≤ available_width tagW →
      (∀ s, 8 ≤ s → s ≤ 14 → ¬ μ footer s ≤ available_width tagW) →
      footer_size_of μ footer (available_width tagW) = 8) ∧
    (draw_nametag μ x y tagW tagH name footer).length =
      1 + (layout_name_lines μ name (available_width tagW) 96 18).1.length := by
  refine ⟨rfl, ?_, ?_, ?_, ?_⟩
  · intro hfit
    unfold footer_size_of
    rw [if_pos hfit]
  · intro hfit
    have heq : footer_size_of μ footer (available_width tagW) =
        find_font_size_for_line μ footer (available_width tagW) 14 8 := by
      unfold footer_size_of
      rw [if_neg hfit]
    have hle1 : 8 ≤ find_font_size_for_line μ footer (available_width tagW) 14 8 := by
      rcases find_font_size_spec μ footer (available_width tagW) 14 8 with ⟨h8, _⟩ | ⟨hmem, _⟩
      · rw [h8]
      · exact (mem_descRange.mp hmem).1
    have hle2 : find_font_size_for_line μ footer (available_width tagW) 14 8 ≤ 14 := by
      rcases find_font_size_spec μ footer (available_width tagW) 14 8 with ⟨h8, _⟩ | ⟨hmem, _⟩
      · rw [h8]
        norm_num
      · exact (mem_descRange.mp hmem).2
    exact ⟨heq, by rw [heq]; exact hle1, by rw [heq]; exact hle2⟩
  · intro hfit hnone
    unfold footer_size_of
    rw [if_neg hfit]
    rcases find_font_size_spec μ footer (available_width tagW) 14 8 with ⟨h8, _⟩ | ⟨hmem, hle⟩
    · exact h8
    · exact absurd hle (hnone _ (mem_descRange.mp hmem).1 (mem_descRange.mp hmem).2)
  · simp only [draw_nametag, List.length_cons, List.length_map, List.enum_length]
    rw [Nat.add_comm]
    rfl

set_option maxRecDepth 4000 in
/-- C5 witness: a one-character footer on a 200-wide panel fits at 10 pt and
is drawn bottom-anchored and centered. -/
theorem c5_witness :
    charCountMeasure ('f' :: []) 10 ≤ available_width 200 ∧
    footer_size_of charCountMeasure ('f' :: []) (available_width 200) = 10 ∧
    (draw_nametag charCountMeasure 0 0 200 100 ('J' :: 'o' :: []) ('f' :: [])).head? =
      some (('f' :: []), 10, (200 - 10) / 2, padding_y) := by
  have hfit : charCountMeasure ('f' :: []) 10 ≤ available_width 200 := by
    norm_num [charCountMeasure, available_width, padding_x]
  have h := c5_footer_fitting charCountMeasure 0 0 200 100 ('J' :: 'o' :: []) ('f' :: [])
  have hsize := h.2.1 hfit
  refine ⟨hfit, hsize, ?_⟩
  have hhead := h.1
  rw [hsize] at hhead
  rw [hhead]
  norm_num [charCountMeasure]

/-! ## Claim C6: anti-overlap safeguard -/

/-- Modelled from the claim's words, for comparison with `adjusted_size`:
C6 replaces the size whenever the total block height exceeds the name area
height, with no `name_area_height > 0` guard. -/
def claimed_adjusted_size (nameAreaHeight : ℚ) (nLines fontSize : ℕ) : ℕ :=
  if nameAreaHeight < total_text_height nLines fontSize then
    max (pyInt ((fontSize : ℚ) * (nameAreaHeight / total_text_height nLines fontSize))) 14
  else fontSize

set_option maxRecDepth 10000 in
/-- C6 counterexample: a degenerate panel (letter landscape split 15×15,
`tag_width = 792/15`, `tag_height = 612/15`) has `name_area_height = 0`; the
one-line layout at engine size 18 has total height 18 > 0, so the claim
demands the clamped rescale to 14, but the code keeps 18 — the guard
`name_area_height > 0` makes the code keep the engine size. -/
theorem c6_counterexample :
    name_area_height_of charCountMeasure 0 (612 / 15) (792 / 15) [] = 0 ∧
    (0 : ℚ) < total_text_height 1 18 ∧
    adjusted_size 0 1 18 = 18 ∧
    claimed_adjusted_size 0 1 18 = 14 ∧
    (∀ it ∈ (draw_nametag charCountMeasure 0 0 (792 / 15) (612 / 15)
        ('J' :: 'o' :: []) []).tail, it.2.1 = 18) := by
  have havail : available_width (792 / 15 : ℚ) = 12 / 5 := by
    norm_num [available_width, padding_x]
  have hfsz : footer_size_of charCountMeasure [] (available_width (792 / 15)) = 10 := by
    rw [havail]
    norm_num [footer_size_of, charCountMeasure]
  have hnah : name_area_height_of charCountMeasure 0 (612 / 15) (792 / 15) [] = 0 := by
    rw [name_area_height_of, hfsz]
    norm_num [padding_y, gap_above_footer]
  have hws : pySplit ('J' :: 'o' :: []) = (('J' :: 'o' :: []) :: []) := by decide
  have hlayout : layout_name_lines charCountMeasure ('J' :: 'o' :: [])
      (available_width (792 / 15)) 96 18 = (('J' :: 'o' :: []) :: [], 18) := by
    rw [havail]
    norm_num [layout_name_lines, find_font_size_for_line, descRange, charCountMeasure,
      try_two_line_split, hws, splitIndices,
      List.range_succ, List.find?, List.findSome?]
  have hadj : adjusted_size 0 1 18 = 18 := by
    norm_num [adjusted_size]
  refine ⟨hnah, by norm_num [total_text_height, line_gap_ratio], hadj, ?_, ?_⟩
  · have htot : total_text_height 1 18 = 18 := by
      norm_num [total_text_height, line_gap_ratio]
    rw [claimed_adjusted_size, htot]
    norm_num [pyInt]
  · intro it hit
    simp only [draw_nametag, List.tail_cons, List.mem_map] at hit
    obtain ⟨p, _, hp⟩ := hit
    rw [← hp]
    simp only [name_block, hnah, hlayout]
    exact hadj

/-- C6 (amended): in every panel render, the name lines are drawn at
`adjusted_size`: when the name area height is positive and the layout's total
block height exceeds it, the engine's size is replaced by
`max(int(size · areaHeight/totalHeight), 14)` (so at least 14); otherwise —
including when the name area height is zero — the size chosen by the line-fit
engine is kept unchanged. -/
theorem c6_name_size_adjustment (μ : Measure) (x y tagW tagH : ℚ)
    (name footer : Str) :
    (∀ it ∈ (draw_nametag μ x y tagW tagH name footer).tail,
      it.2.1 = adjusted_size (name_area_height_of μ y tagH tagW footer)
        (layout_name_lines μ name (available_width tagW) 96 18).1.length
        (layout_name_lines μ name (available_width tagW) 96 18).2) ∧
    (0 < name_area_height_of μ y tagH tagW footer →
      name_area_height_of μ y tagH tagW footer <
        total_text_height (layout_name_lines μ name (available_width tagW) 96 18).1.length
          (layout_name_lines μ name (available_width tagW) 96 18).2 →
      adjusted_size (name_area_height_of μ y tagH tagW footer)
          (layout_name_lines μ name (available_width tagW) 96 18).1.length
          (layout_name_lines μ name (available_width tagW) 96 18).2 =
        max (pyInt (((layout_name_lines μ name (available_width tagW) 96 18).2 : ℚ) *
          (name_area_height_of μ y tagH tagW footer /
            total_text_height (layout_name_lines μ name (available_width tagW) 96 18).1.length
              (layout_name_lines μ name (available_width tagW) 96 18).2))) 14 ∧
      14 ≤ adjusted_size (name_area_height_of μ y tagH tagW footer)
        (layout_name_lines μ name (available_width tagW) 96 18).1.length
        (layout_name_lines μ name (available_width tagW) 96 18).2) ∧
    (¬ (0 < name_area_height_of μ y tagH tagW footer ∧
        name_area_height_of μ y tagH tagW footer <
          total_text_height (layout_name_lines μ name (available_width tagW) 96 18).1.length
            (layout_name_lines μ name (available_width tagW) 96 18).2) →
      adjusted_size (name_area_height_of μ y tagH tagW footer)
          (layout_name_lines μ name (available_width tagW) 96 18).1.length
          (layout_name_lines μ name (available_width tagW) 96 18).2 =
        (layout_name_lines μ name (available_width tagW) 96 18).2) := by
  refine ⟨?_, ?_, ?_⟩
  · intro it hit
    simp only [draw_nametag, List.tail_cons, List.mem_map] at hit
    obtain ⟨p, _, hp⟩ := hit
    rw [← hp]
    rfl
  · intro h1 h2
    unfold adjusted_size
    rw [if_pos ⟨h1, h2⟩]
    exact ⟨rfl, le_max_right _ _⟩
  · intro h
    unfold adjusted_size
    rw [if_neg h]

/-- C6 amended-claim witness: a tall panel leaves the engine size unchanged
(the `otherwise` branch at a positive name area height). -/
theorem c6_witness :
    ¬ (0 < name_area_height_of charCountMeasure 0 400 200 ('f' :: []) ∧
        name_area_height_of charCountMeasure 0 400 200 ('f' :: []) <
          total_text_height
            (layout_name_lines charCountMeasure ('J' :: 'o' :: [])
              (available_width 200) 96 18).1.length
            (layout_name_lines charCountMeasure ('J' :: 'o' :: [])
              (available_width 200) 96 18).2) ∧
    adjusted_size (name_area_height_of charCountMeasure 0 400 200 ('f' :: []))
        (layout_name_lines charCountMeasure ('J' :: 'o' :: [])
          (available_width 200) 96 18).1.length
        (layout_name_lines charCountMeasure ('J' :: 'o' :: [])
          (available_width 200) 96 18).2 =
      (layout_name_lines charCountMeasure ('J' :: 'o' :: [])
        (available_width 200) 96 18).2 := by
  have havail : available_width (200 : ℚ) = 748 / 5 := by
    norm_num [available_width, padding_x]
  have hfsz : footer_size_of charCountMeasure ('f' :: []) (available_width 200) = 10 := by
    rw [havail]
    norm_num [footer_size_of, charCountMeasure]
  have hnah : name_area_height_of charCountMeasure 0 400 200 ('f' :: []) = 8958 / 25 := by
    rw [name_area_height_of, hfsz]
    norm_num [padding_y, gap_above_footer]
  have hlayout : layout_name_lines charCountMeasure ('J' :: 'o' :: [])
      (available_width 200) 96 18 = (('J' :: 'o' :: []) :: [], 74) := by
    rw [havail]
    have h74 : (descRange 96 18).find?
        (fun s => decide (charCountMeasure ('J' :: 'o' :: []) s ≤ 748 / 5)) = some 74 := by
      apply find?_eq_some_of_max (descRange_pairwise 96 18)
      · exact mem_descRange.mpr ⟨by norm_num, by norm_num⟩
      · simp only [decide_eq_true_eq]
        norm_num [charCountMeasure]
      · intro s' hs' hp
        have h2 : (2 : ℚ) * (s' : ℕ) ≤ 748 / 5 := by
          have hpp := of_decide_eq_true hp
          simpa [charCountMeasure] using hpp
        by_contra hcon
        push_neg at hcon
        have h75n : 75 ≤ s' := hcon
        have h75 : (75 : ℚ) ≤ ((s' : ℕ) : ℚ) := by exact_mod_cast h75n
        linarith
    have hfind : find_font_size_for_line charCountMeasure ('J' :: 'o' :: []) (748 / 5) 96 18 = 74 := by
      unfold find_font_size_for_line
      rw [h74]
    simp only [layout_name_lines, hfind]
    rw [if_pos (by norm_num [charCountMeasure])]
  have hlen : (layout_name_lines charCountMeasure ('J' :: 'o' :: [])
      (available_width 200) 96 18).1.length = 1 := by
    rw [hlayout]
    rfl
  have hsz : (layout_name_lines charCountMeasure ('J' :: 'o' :: [])
      (available_width 200) 96 18).2 = 74 := by
    rw [hlayout]
  have hcond : ¬ (0 < name_area_height_of charCountMeasure 0 400 200 ('f' :: []) ∧
      name_area_height_of charCountMeasure 0 400 200 ('f' :: []) <
        total_text_height
          (layout_name_lines charCountMeasure ('J' :: 'o' :: [])
            (available_width 200) 96 18).1.length
          (layout_name_lines charCountMeasure ('J' :: 'o' :: [])
            (available_width 200) 96 18).2) := by
    rw [hnah, hlen, hsz]
    norm_num [total_text_height, line_gap_ratio]
  refine ⟨hcond, ?_⟩
  unfold adjusted_size
  rw [if_neg hcond]

/-! ## Claims C7–C10: roster loading and grid defaults -/

lemma head?_dropWhile_false {p : Char → Bool} {l : Str} {c : Char}
    (h : (l.dropWhile p).head? = some c) : p c = false := by
  have hh := List.head?_dropWhile_not p l
  rw [h] at hh
  simpa using hh

lemma getLast?_of_suffix_ne_nil {l₁ l₂ : Str} (h : l₁ <:+ l₂) (hne : l₁ ≠ []) :
    l₂.getLast? = l₁.getLast? := by
  obtain ⟨t, ht⟩ := h
  rw [← ht]
  exact List.getLast?_append_of_ne_nil t hne

/-- The first character surviving a two-sided strip does not satisfy `p`. -/
lemma pyStripWith_head?_false {p : Char → Bool} {l : Str} {c : Char}
    (h : (pyStripWith p l).head? = some c) : p c = false := by
  unfold pyStripWith at h
  rw [List.head?_reverse] at h
  have hY : (l.dropWhile p).reverse.dropWhile p ≠ [] := by
    intro he
    rw [he] at h
    simp at h
  have h2 : (l.dropWhile p).reverse.getLast? = some c := by
    rw [getLast?_of_suffix_ne_nil (List.dropWhile_suffix p) hY]
    exact h
  rw [List.getLast?_reverse] at h2
  exact head?_dropWhile_false h2

/-- The last character surviving a two-sided strip does not satisfy `p`. -/
lemma pyStripWith_getLast?_false {p : Char → Bool} {l : Str} {c : Char}
    (h : (pyStripWith p l).getLast? = some c) : p c = false := by
  unfold pyStripWith at h
  rw [List.getLast?_reverse] at h
  exact head?_dropWhile_false h

lemma pyStrip_eq_nil_of_all_space {l : Str} (h : ∀ c ∈ l, pyIsSpace c = true) :
    pyStrip l = [] := by
  unfold pyStrip pyStripWith
  have h1 : l.dropWhile pyIsSpace = [] := List.dropWhile_eq_nil_iff.mpr h
  rw [h1]
  rfl

lemma isEmpty_false_of_ne_nil {α : Type} {l : List α} (h : l ≠ []) : l.isEmpty = false := by
  cases l with
  | nil => exact absurd rfl h
  | cons a t => rfl

lemma isEmpty_ne_true_of_ne_nil {α : Type} {l : List α} (h : l ≠ []) : ¬ l.isEmpty = true := by
  rw [isEmpty_false_of_ne_nil h]
  intro hcon
  cases hcon

lemma ne_nil_of_isEmpty_ne_true {α : Type} {l : List α} (h : ¬ l.isEmpty = true) : l ≠ [] := by
  intro he
  rw [he] at h
  exact h rfl

/-- Shape of a kept row's display name: it is either the cleaned full name or
a stripped nonempty preferred name. -/
lemma processRow_shape (pref : Option (List (Str × Str))) (emailField : Bool)
    (nameVal emailVal : Str) (x : Str)
    (h : processRow pref emailField nameVal emailVal = some x) :
    clean_full (pyStrip nameVal) ≠ [] ∧
    (x = clean_full (pyStrip nameVal) ∨ ∃ p, x = pyStrip p ∧ pyStrip p ≠ []) := by
  cases pref with
  | none =>
    simp only [processRow] at h
    by_cases hraw : (pyStrip nameVal).isEmpty = true
    · rw [if_pos hraw] at h
      simp at h
    rw [if_neg hraw] at h
    by_cases hclean : (clean_full (pyStrip nameVal)).isEmpty = true
    · rw [if_pos hclean] at h
      simp at h
    rw [if_neg hclean] at h
    exact ⟨ne_nil_of_isEmpty_ne_true hclean, Or.inl (Option.some_inj.mp h).symm⟩
  | some m =>
    simp only [processRow] at h
    by_cases hraw : (pyStrip nameVal).isEmpty = true
    · rw [if_pos hraw] at h
      simp at h
    rw [if_neg hraw] at h
    by_cases hclean : (clean_full (pyStrip nameVal)).isEmpty = true
    · rw [if_pos hclean] at h
      simp at h
    rw [if_neg hclean] at h
    refine ⟨ne_nil_of_isEmpty_ne_true hclean, ?_⟩
    by_cases hm : m.isEmpty = true
    · rw [if_pos hm] at h
      exact Or.inl (Option.some_inj.mp h).symm
    rw [if_neg hm] at h
    by_cases hef : (!emailField) = true
    · rw [if_pos hef] at h
      exact Or.inl (Option.some_inj.mp h).symm
    rw [if_neg hef] at h
    by_cases hev : (pyStrip emailVal).isEmpty = true
    · rw [if_pos hev] at h
      exact Or.inl (Option.some_inj.mp h).symm
    rw [if_neg hev] at h
    by_cases hat : (!((pyStrip emailVal).any (fun c => c == '@'))) = true
    · rw [if_pos hat] at h
      exact Or.inl (Option.some_inj.mp h).symm
    rw [if_neg hat] at h
    cases hdg : dictGet m (netid_of (pyStrip emailVal)) with
    | none =>
      rw [hdg] at h
      exact Or.inl (Option.some_inj.mp h).symm
    | some p =>
      rw [hdg] at h
      have hx : (if (pyStrip p).isEmpty = true then clean_full (pyStrip nameVal)
          else pyStrip p) = x := Option.some_inj.mp h
      by_cases hpc : (pyStrip p).isEmpty = true
      · rw [if_pos hpc] at hx
        exact Or.inl hx.symm
      · rw [if_neg hpc] at hx
        exact Or.inr ⟨p, hx.symm, ne_nil_of_isEmpty_ne_true hpc⟩

/-- C7 counterexample: the full-name cell `" A B "` (with literal surrounding
double quotes) survives as `' A B '`: quote stripping re-exposes leading and
trailing whitespace, so the returned display name is not trimmed. -/
theorem c7_counterexample :
    read_full_names_from_csv none false
        ((('"' :: ' ' :: 'A' :: ' ' :: 'B' :: ' ' :: '"' :: []), ([] : Str)) :: []) =
      (' ' :: 'A' :: ' ' :: 'B' :: ' ' :: []) :: [] ∧
    pyIsSpace ' ' = true := by
  decide

/-- C7 (amended): every returned display name is nonempty and rows with
whitespace-only name cells are skipped; a returned name is either the
cleaned full-name value (whitespace collapsed, trimmed, then surrounding
quotes stripped — which can re-expose edge whitespace) or a preferred name
that is trimmed (no leading/trailing whitespace) but not collapsed. -/
theorem c7_roster_normalization (pref : Option (List (Str × Str)))
    (emailField : Bool) (rows : List (Str × Str)) :
    (∀ x ∈ read_full_names_from_csv pref emailField rows,
      x ≠ [] ∧
      ((∃ r ∈ rows, x = clean_full (pyStrip r.1)) ∨
       ((∀ c, x.head? = some c → pyIsSpace c = false) ∧
        (∀ c, x.getLast? = some c → pyIsSpace c = false)))) ∧
    (∀ nameVal emailVal : Str, (∀ c ∈ nameVal, pyIsSpace c = true) →
      processRow pref emailField nameVal emailVal = none) := by
  constructor
  · intro x hx
    obtain ⟨r, hrmem, hpr⟩ := List.mem_filterMap.mp hx
    obtain ⟨hcleanne, hshape⟩ := processRow_shape pref emailField r.1 r.2 x hpr
    rcases hshape with hfull | ⟨p, hp, hpne⟩
    · refine ⟨by rw [hfull]; exact hcleanne, Or.inl ⟨r, hrmem, hfull⟩⟩
    · refine ⟨by rw [hp]; exact hpne, Or.inr ⟨?_, ?_⟩⟩
      · intro c hc
        rw [hp] at hc
        exact pyStripWith_head?_false hc
      · intro c hc
        rw [hp] at hc
        exact pyStripWith_getLast?_false hc
  · intro nameVal emailVal hws
    have hnil : pyStrip nameVal = [] := pyStrip_eq_nil_of_all_space hws
    simp only [processRow, hnil]
    rfl

/-- C7 witness: a one-letter roster row is returned nonempty. -/
theorem c7_witness :
    ('A' :: []) ∈ read_full_names_from_csv none false ((('A' :: []), ([] : Str)) :: []) ∧
    ('A' :: []) ≠ [] := by
  have hmem : ('A' :: []) ∈ read_full_names_from_csv none false
      ((('A' :: []), ([] : Str)) :: []) := by decide
  exact ⟨hmem,
    ((c7_roster_normalization none false ((('A' :: []), ([] : Str)) :: [])).1 _ hmem).1⟩

/-- C8 counterexample: the email cell `" al123@x.edu"`-style value
`" al123@x"`: its local part before the first `'@'` is `" al123"`, which has
no entry in the mapping `{"al123" ↦ "Ada"}`, yet the code (which trims the
email and the derived netid) does replace the name — the claim's untrimmed
netid definition mispredicts the output. -/
theorem c8_counterexample :
    read_full_names_from_csv
        (some ((('a' :: 'l' :: '1' :: '2' :: '3' :: []), ('A' :: 'd' :: 'a' :: [])) :: []))
        true
        ((('B' :: 'o' :: 'b' :: []),
          (' ' :: 'a' :: 'l' :: '1' :: '2' :: '3' :: '@' :: 'x' :: [])) :: []) =
      ('A' :: 'd' :: 'a' :: []) :: [] ∧
    ((' ' :: 'a' :: 'l' :: '1' :: '2' :: '3' :: '@' :: 'x' :: []).takeWhile
        (fun c => !(c == '@'))) = (' ' :: 'a' :: 'l' :: '1' :: '2' :: '3' :: []) ∧
    dictGet ((('a' :: 'l' :: '1' :: '2' :: '3' :: []), ('A' :: 'd' :: 'a' :: [])) :: [])
        (' ' :: 'a' :: 'l' :: '1' :: '2' :: '3' :: []) = none := by
  decide

/-- C8 (amended): with a nonempty mapping and a detected email column, for a
kept row whose trimmed email contains `'@'`, the join key is the trimmed
local part of the trimmed email before the first `'@'`; a nonempty (after
trimming) preferred name for that netid replaces the cleaned full name, and
otherwise (missing key, blank preferred name, or no `'@'`) the cleaned full
name is used. -/
theorem c8_preferred_override (m : List (Str × Str)) (hm : m ≠ [])
    (nameVal emailVal : Str)
    (hraw : pyStrip nameVal ≠ [])
    (hclean : clean_full (pyStrip nameVal) ≠ [])
    (hat : '@' ∈ pyStrip emailVal) :
    (∀ p, dictGet m (netid_of (pyStrip emailVal)) = some p → pyStrip p ≠ [] →
      processRow (some m) true nameVal emailVal = some (pyStrip p)) ∧
    (dictGet m (netid_of (pyStrip emailVal)) = none →
      processRow (some m) true nameVal emailVal = some (clean_full (pyStrip nameVal))) ∧
    (∀ p, dictGet m (netid_of (pyStrip emailVal)) = some p → pyStrip p = [] →
      processRow (some m) true nameVal emailVal = some (clean_full (pyStrip nameVal))) ∧
    (∀ ev2 : Str, ¬ '@' ∈ pyStrip ev2 →
      processRow (some m) true nameVal ev2 = some (clean_full (pyStrip nameVal))) := by
  have hev : pyStrip emailVal ≠ [] := by
    intro he
    rw [he] at hat
    simp at hat
  have hany : ((pyStrip emailVal).any (fun c => c == '@')) = true := by
    rw [List.any_eq_true]
    exact ⟨'@', hat, by simp⟩
  have hbase : ∀ ev2 : Str, processRow (some m) true nameVal ev2 =
      some (if (pyStrip ev2).isEmpty then clean_full (pyStrip nameVal)
        else if !((pyStrip ev2).any (fun c => c == '@')) then clean_full (pyStrip nameVal)
        else
          match dictGet m (netid_of (pyStrip ev2)) with
          | none => clean_full (pyStrip nameVal)
          | some p =>
            if (pyStrip p).isEmpty then clean_full (pyStrip nameVal) else pyStrip p) := by
    intro ev2
    simp only [processRow]
    rw [if_neg (isEmpty_ne_true_of_ne_nil hraw), if_neg (isEmpty_ne_true_of_ne_nil hclean),
      if_neg (isEmpty_ne_true_of_ne_nil hm), if_neg (show ¬ ((!true) = true) by decide)]
  refine ⟨?_, ?_, ?_, ?_⟩
  · intro p hdg hpne
    rw [hbase emailVal, if_neg (isEmpty_ne_true_of_ne_nil hev),
      if_neg (by rw [hany]; intro hcon; cases hcon), hdg]
    show some (if (pyStrip p).isEmpty = true then clean_full (pyStrip nameVal)
      else pyStrip p) = some (pyStrip p)
    rw [if_neg (isEmpty_ne_true_of_ne_nil hpne)]
  · intro hdg
    rw [hbase emailVal, if_neg (isEmpty_ne_true_of_ne_nil hev),
      if_neg (by rw [hany]; intro hcon; cases hcon), hdg]
  · intro p hdg hpe
    rw [hbase emailVal, if_neg (isEmpty_ne_true_of_ne_nil hev),
      if_neg (by rw [hany]; intro hcon; cases hcon), hdg]
    show some (if (pyStrip p).isEmpty = true then clean_full (pyStrip nameVal)
      else pyStrip p) = some (clean_full (pyStrip nameVal))
    rw [if_pos (by rw [hpe]; rfl)]
  · intro ev2 hnat
    rw [hbase ev2]
    by_cases hev2 : (pyStrip ev2).isEmpty = true
    · rw [if_pos hev2]
    · rw [if_neg hev2]
      have hnone : ((pyStrip ev2).any (fun c => c == '@')) = false := by
        rw [List.any_eq_false]
        intro c hc
        simp only [beq_iff_eq]
        intro hceq
        exact hnat (hceq ▸ hc)
      rw [if_pos (by rw [hnone]; rfl)]

/-- C8 witness: the mapping `{"n" ↦ "P"}` replaces `"B"` for the email
`"n@x"`. -/
theorem c8_witness :
    processRow (some ((('n' :: []), ('P' :: [])) :: [])) true ('B' :: [])
        ('n' :: '@' :: 'x' :: []) = some ('P' :: []) := by
  have h := c8_preferred_override ((('n' :: []), ('P' :: [])) :: []) (by decide)
    ('B' :: []) ('n' :: '@' :: 'x' :: []) (by decide) (by decide) (by decide)
  have h2 := h.1 ('P' :: []) (by decide) (by decide)
  simpa using h2

/-- Modelled from the claim's words, for comparison with `main_grid`: the
grid with an explicit caller-override flag, whose values are used unchanged
whenever the caller overrode rows/cols. -/
def claimed_main_grid (overridden tent : Bool) (tentStyle : Str) (rows cols : ℕ) : ℕ × ℕ :=
  if tent = true ∧ overridden = false then
    if tentStyle = 't' :: 'r' :: 'i' :: [] then (1, 2) else (2, 1)
  else (rows, cols)

/-- C9 counterexample: a caller that explicitly passes `--rows 2 --cols 2`
(the parser defaults) with tent mode on has overridden the grid, but the code
cannot distinguish that from the defaults and still applies the tent default
1×2 — the claimed "overridden values are used unchanged" fails. -/
theorem c9_counterexample :
    main_grid true ('t' :: 'r' :: 'i' :: []) 2 2 = (1, 2) ∧
    claimed_main_grid true true ('t' :: 'r' :: 'i' :: []) 2 2 = (2, 2) ∧
    ((1, 2) : ℕ × ℕ) ≠ (2, 2) := by
  decide

/-- C9 (amended): with tent mode on, the tent defaults (tri → 1×2, bi → 2×1)
apply exactly when `rows = 2 ∧ cols = 2` — the parser defaults, which the code
cannot tell apart from an explicitly passed 2×2; any other caller-supplied
values are used unchanged, as is everything when tent mode is off. -/
theorem c9_tent_grid_defaults (tentStyle : Str) (rows cols : ℕ) :
    main_grid false tentStyle rows cols = (rows, cols) ∧
    (¬ (rows = 2 ∧ cols = 2) → main_grid true tentStyle rows cols = (rows, cols)) ∧
    main_grid true ('t' :: 'r' :: 'i' :: []) 2 2 = (1, 2) ∧
    (tentStyle ≠ 't' :: 'r' :: 'i' :: [] → main_grid true tentStyle 2 2 = (2, 1)) := by
  refine ⟨?_, ?_, ?_, ?_⟩
  · simp [main_grid]
  · intro h
    simp only [main_grid]
    rw [if_neg (by
      intro hcon
      exact h ⟨hcon.2.1, hcon.2.2⟩)]
  · simp [main_grid]
  · intro h
    simp only [main_grid]
    rw [if_pos (show True ∧ True ∧ True from ⟨trivial, trivial, trivial⟩), if_neg h]

/-- C9 amended-claim witness: a 3×2 caller grid survives tent mode, and the
bi style defaults to 2×1. -/
theorem c9_witness :
    main_grid true ('t' :: 'r' :: 'i' :: []) 3 2 = (3, 2) ∧
    main_grid true ('b' :: 'i' :: []) 2 2 = (2, 1) := by
  constructor
  · exact (c9_tent_grid_defaults ('t' :: 'r' :: 'i' :: []) 3 2).2.1 (by decide)
  · exact (c9_tent_grid_defaults ('b' :: 'i' :: []) 2 2).2.2.2 (by decide)

/-- C10: the roster loader strips surrounding double quotes from full-name
values (`"Ada Lovelace"` → `Ada Lovelace`), never leaves an edge quote,
preserves interior quotes, and does not quote-strip preferred names. -/
theorem c10_quote_stripping :
    clean_full (pyStrip ('"' :: 'A' :: 'd' :: 'a' :: ' ' :: 'L' :: 'o' :: 'v' :: 'e' ::
        'l' :: 'a' :: 'c' :: 'e' :: '"' :: [])) =
      ('A' :: 'd' :: 'a' :: ' ' :: 'L' :: 'o' :: 'v' :: 'e' :: 'l' :: 'a' :: 'c' :: 'e' :: []) ∧
    (∀ v : Str,
      (∀ c, (clean_full v).head? = some c → c ≠ '"') ∧
      (∀ c, (clean_full v).getLast? = some c → c ≠ '"')) ∧
    clean_full (pyStrip ('O' :: '"' :: 'B' :: [])) = ('O' :: '"' :: 'B' :: []) ∧
    read_full_names_from_csv (some ((('n' :: []), ('"' :: 'X' :: '"' :: [])) :: [])) true
        ((('B' :: 'o' :: 'b' :: []), ('n' :: '@' :: 'x' :: [])) :: []) =
      ('"' :: 'X' :: '"' :: []) :: [] := by
  refine ⟨by decide, ?_, by decide, by decide⟩
  intro v
  constructor
  · intro c hc
    simp only [clean_full, stripQuotes] at hc
    have hf := pyStripWith_head?_false hc
    simpa using hf
  · intro c hc
    simp only [clean_full, stripQuotes] at hc
    have hf := pyStripWith_getLast?_false hc
    simpa using hf

/-- C10 witness: the edge-quote-free guarantee at a concrete quoted value. -/
theorem c10_witness :
    (clean_full ('"' :: 'a' :: '"' :: [])).head? = some 'a' ∧ 'a' ≠ '"' :=
  ⟨by decide, (c10_quote_stripping.2.1 ('"' :: 'a' :: '"' :: [])).1 'a' (by decide)⟩

end Nametags
